import Mathlib

/-!
Verification of the publication-reconciliation pipeline of
`src/scripts/dtcc-get-authors.py` (dtcc-platform/dtcc-utils).

Python text values are modelled as `List Char`, optional values as `Option`,
and Python truthiness (`if x:`) by explicit predicates: an optional string is
truthy iff it is present and non-empty, an optional integer iff it is present
and non-zero, a list iff it is non-empty.
-/

/-- Python strings, modelled as lists of characters. -/
abbrev PyStr := List Char

/-- Python `str.lower()` (character-wise lowercasing). -/
def pyLower (s : PyStr) : PyStr := s.map Char.toLower

/-- Decimal digits, least significant first, with explicit fuel (the fuel is
irrelevant as soon as it exceeds the argument, see `natCharsRevGo_congr`). -/
def natCharsRevGo : Nat → Nat → List Char
  | 0, _ => []
  | fuel + 1, n =>
    if n < 10 then [Nat.digitChar n]
    else Nat.digitChar (n % 10) :: natCharsRevGo fuel (n / 10)

/-- Decimal digits of `n`, least significant first (`str(n)` reversed). -/
def natCharsRev (n : Nat) : List Char := natCharsRevGo (n + 1) n

/-- Python `str(n)` for a natural number `n`. -/
def pyNatStr (n : Nat) : PyStr := (natCharsRev n).reverse

/-- Python `str(x)` for an `Optional[int]`: `str(None)` is `"None"`. -/
def pyOptNatStr : Option Nat → PyStr
  | none => ("None").data
  | some n => pyNatStr n

/-- Python truthiness of an `Optional[str]`: truthy iff present and non-empty. -/
def pyStrTruthy : Option PyStr → Bool
  | none => false
  | some s => !s.isEmpty

/-- Python truthiness of an `Optional[int]`: truthy iff present and non-zero. -/
def pyNatTruthy : Option Nat → Bool
  | none => false
  | some n => n != 0

/-- The `Publication` dataclass (dtcc-get-authors.py, lines 25-54), with its
fields in declaration order.  `title` and `authors` are required, `source`
defaults to the empty string, everything else to `None`. -/
structure Publication where
  title : PyStr
  authors : List PyStr
  year : Option Nat
  doi : Option PyStr := none
  journal : Option PyStr := none
  volume : Option PyStr := none
  issue : Option PyStr := none
  pages : Option PyStr := none
  publisher : Option PyStr := none
  url : Option PyStr := none
  abstract : Option PyStr := none
  citations : Option Nat := none
  type : Option PyStr := none
  source : PyStr := []
  deriving DecidableEq, Repr

/-- The title+year fallback key `f"{pub.title.lower()}_{pub.year}"`
(dtcc-get-authors.py line 856). -/
def titleYearKey (p : Publication) : PyStr :=
  pyLower p.title ++ '_' :: pyOptNatStr p.year

/-- The identity key of `merge_publications`
(line 856): `pub.doi.lower() if pub.doi else f"{pub.title.lower()}_{pub.year}"`.
A present but empty DOI is falsy in Python and falls back to title+year. -/
def pubKey (p : Publication) : PyStr :=
  match p.doi with
  | some d => if d.isEmpty then titleYearKey p else pyLower d
  | none => titleYearKey p

/-- Whether a record's DOI is truthy (present and non-empty). -/
def hasDoi (p : Publication) : Bool := pyStrTruthy p.doi

/-- The DOI string of a record, defaulting to the empty string. -/
def doiStr (p : Publication) : PyStr := p.doi.getD []

/-- Fill-if-empty policy for an optional string field
(`if not existing.x and pub.x: existing.x = pub.x`). -/
def fillStrField (a b : Option PyStr) : Option PyStr :=
  if !pyStrTruthy a && pyStrTruthy b then b else a

/-- Fill-if-empty policy for an optional integer field
(`if not existing.citations and pub.citations: ...`). -/
def fillNatField (a b : Option Nat) : Option Nat :=
  if !pyNatTruthy a && pyNatTruthy b then b else a

/-- The merge of an incoming record `pub` into the existing primary record
`existing` (dtcc-get-authors.py lines 861-896): `source` is always
concatenated with `", "`, and each of the listed optional fields is filled
from `pub` exactly when it is falsy in `existing` and truthy in `pub`.
`title`, `year` and `doi` are not touched. -/
def mergeInto (existing pub : Publication) : Publication :=
  { existing with
    source := existing.source ++ (", ").data ++ pub.source
    authors :=
      if existing.authors.isEmpty && !pub.authors.isEmpty then pub.authors
      else existing.authors
    journal := fillStrField existing.journal pub.journal
    abstract := fillStrField existing.abstract pub.abstract
    url := fillStrField existing.url pub.url
    volume := fillStrField existing.volume pub.volume
    issue := fillStrField existing.issue pub.issue
    pages := fillStrField existing.pages pub.pages
    publisher := fillStrField existing.publisher pub.publisher
    citations := fillNatField existing.citations pub.citations
    type := fillStrField existing.type pub.type }

/-- One step of the merge loop on the insertion-ordered association list that
models the Python dict `merged`: a new key is appended at the end, an existing
key has the incoming record merged into its stored primary. -/
def insertPub : List (PyStr × Publication) → PyStr → Publication → List (PyStr × Publication)
  | [], k, p => [(k, p)]
  | (k', q) :: rest, k, p =>
    if k' = k then (k', mergeInto q p) :: rest
    else (k', q) :: insertPub rest k p

/-- Processing of one input record by `merge_publications`. -/
def mergeStep (acc : List (PyStr × Publication)) (p : Publication) :
    List (PyStr × Publication) :=
  insertPub acc (pubKey p) p

/-- `merge_publications` (dtcc-get-authors.py lines 851-898): fold the input
records into an insertion-ordered dict keyed by `pubKey`, then emit the
surviving primaries in first-seen key order. -/
def merge_publications (l : List Publication) : List Publication :=
  (l.foldl mergeStep []).map Prod.snd

/-- `.lower()` on an `Optional[str]`: defined only when the value is present
(an absent value would raise `AttributeError`). -/
def optLower (o : Option PyStr) : Option PyStr := o.map pyLower

/-- Key computation with every attribute access on an optional value made
explicit: the `.lower()` call on the DOI is guarded by the truthiness test,
exactly as on line 856 of the script. -/
def pubKeyChecked (p : Publication) : Option PyStr :=
  if pyStrTruthy p.doi then optLower p.doi else some (titleYearKey p)

/-- One checked step of the merge loop: fails iff the key computation fails. -/
def mergeStepChecked (acc : List (PyStr × Publication)) (p : Publication) :
    Option (List (PyStr × Publication)) :=
  (pubKeyChecked p).map (fun k => insertPub acc k p)

/-- `merge_publications` with each potentially-raising access made explicit in
the `Option` monad; `none` models an uncaught exception. -/
def merge_publications_checked (l : List Publication) : Option (List Publication) :=
  (l.foldlM mergeStepChecked []).map (List.map Prod.snd)

/-- The comparator of Python `list.sort(key=f, reverse=rev)`: ascending on
`f` by default, descending when `rev`; a stable sort with this comparator
keeps the original relative order of records whose keys compare equal. -/
def leOf {β : Type} [LinearOrder β] (f : Publication → β) (rev : Bool) :
    Publication → Publication → Bool :=
  fun a b => if rev then decide (f b ≤ f a) else decide (f a ≤ f b)

/-- Python's `list.sort(key=f, reverse=rev)` (a stable sort), modelled by the
stable `List.mergeSort`. -/
def pySortBy {β : Type} [LinearOrder β] (f : Publication → β) (rev : Bool)
    (l : List Publication) : List Publication :=
  l.mergeSort (leOf f rev)

/-- Sort key `lambda x: (x.year if x.year else 0)` (line 1133); on natural
numbers Python's truthiness coercion agrees with defaulting to `0`. -/
def sortKeyYear (x : Publication) : Nat :=
  match x.year with
  | some y => y
  | none => 0

/-- Sort key `lambda x: (x.citations if x.citations else 0)` (line 1137). -/
def sortKeyCitations (x : Publication) : Nat :=
  match x.citations with
  | some c => c
  | none => 0

/-- Sort key `lambda x: x.title.lower()` (line 1135), compared with Python's
lexicographic string order. -/
def sortKeyTitle (x : Publication) : String := String.mk (pyLower x.title)

/-- The sort dispatch of `main` (lines 1129-1137): sorts by the selected key,
reversed when requested, and leaves the sequence untouched for any other
key string. -/
def sortPublications (key : PyStr) (rev : Bool) (l : List Publication) :
    List Publication :=
  if key = ("year").data then pySortBy sortKeyYear rev l
  else if key = ("title").data then pySortBy sortKeyTitle rev l
  else if key = ("citations").data then pySortBy sortKeyCitations rev l
  else l

/-- Consume exactly `n` decimal digits (regex `\d{n}`), returning the rest. -/
def consumeDigits : Nat → PyStr → Option PyStr
  | 0, s => some s
  | _ + 1, [] => none
  | n + 1, c :: s => if c.isDigit then consumeDigits n s else none

/-- Consume one literal character, returning the rest. -/
def consumeChar (a : Char) : PyStr → Option PyStr
  | [] => none
  | c :: s => if c = a then some s else none

/-- Consume the prefix `\d{4}-\d{4}-\d{4}-\d{3}` of the ORCID regex,
returning the remaining characters. -/
def orcidBody (s : PyStr) : Option PyStr :=
  (consumeDigits 4 s).bind fun s1 =>
  (consumeChar '-' s1).bind fun s2 =>
  (consumeDigits 4 s2).bind fun s3 =>
  (consumeChar '-' s3).bind fun s4 =>
  (consumeDigits 4 s4).bind fun s5 =>
  (consumeChar '-' s5).bind fun s6 =>
  consumeDigits 3 s6

/-- The final character class `[\dX]` of the ORCID regex. -/
def lastCharOk (c : Char) : Bool := c.isDigit || c = 'X'

/-- The structural ORCID pattern as described in the specification: four
groups of four digits separated by hyphens, the last character a digit
or `X`, nothing else. -/
def orcidStructural (s : PyStr) : Bool :=
  match orcidBody s with
  | some [c] => lastCharOk c
  | _ => false

/-- `re.match(r"^\d{4}-\d{4}-\d{4}-\d{3}[\dX]$", s)` (line 1048) as a Bool:
the `$` anchor also matches just before a single newline at the end of the
string, so a match may leave exactly one trailing `'\n'` unconsumed. -/
def orcidReMatch (s : PyStr) : Bool :=
  match orcidBody s with
  | some (c :: rest) => lastCharOk c && (rest.isEmpty || rest = [('\n')])
  | _ => false

/-- The validation prefix of `main` (lines 1047-1056): if the ORCID check
fails the run returns exit status 1 without ever invoking the network;
otherwise the rest of the run (`finish`) consumes the network's answer. -/
def validateAndRun {α : Type} (orcid : PyStr) (network : Unit → α)
    (finish : α → Nat) : Nat :=
  if orcidReMatch orcid then finish (network ()) else 1

/-- The fixed `fieldnames` list of `save_to_csv` (lines 958-961). -/
def csvFieldnames : List PyStr :=
  [("title").data, ("authors").data, ("year").data, ("journal").data,
   ("volume").data, ("issue").data, ("pages").data, ("doi").data,
   ("url").data, ("citations").data, ("type").data, ("source").data]

/-- The keys of `vars(pub)` for a `Publication`, in field declaration order. -/
def pubFieldKeys : List PyStr :=
  [("title").data, ("authors").data, ("year").data, ("doi").data,
   ("journal").data, ("volume").data, ("issue").data, ("pages").data,
   ("publisher").data, ("url").data, ("abstract").data, ("citations").data,
   ("type").data, ("source").data]

/-- `csv.DictWriter`'s check of a row against `fieldnames`: the keys of the
row dict that do not occur among the field names (with the default
`extrasaction="raise"`, a non-empty result raises `ValueError`). -/
def wrongFields (rowKeys fieldnames : List PyStr) : List PyStr :=
  rowKeys.filter (fun k => !fieldnames.contains k)

/-- `'; '.join(pub.authors) if pub.authors else ''` (line 968). -/
def joinAuthors (authors : List PyStr) : PyStr :=
  if authors.isEmpty then [] else List.intercalate (("; ").data) authors

/-- CSV cell for an optional string: `None` is written as the empty string. -/
def optStrCell : Option PyStr → PyStr
  | none => []
  | some s => s

/-- CSV cell for an optional integer: `None` is written as the empty string. -/
def optNatCell : Option Nat → PyStr
  | none => []
  | some n => pyNatStr n

/-- The cells of one publication's CSV row, in `csvFieldnames` order. -/
def pubRow (p : Publication) : List PyStr :=
  [p.title, joinAuthors p.authors, optNatCell p.year, optStrCell p.journal,
   optStrCell p.volume, optStrCell p.issue, optStrCell p.pages,
   optStrCell p.doi, optStrCell p.url, optNatCell p.citations,
   optStrCell p.type, p.source]

/-- `writer.writerow(pub_dict)` for one publication: `DictWriter` first
checks the row's keys against `fieldnames` and raises `ValueError` (modelled
as `Except.error` carrying the offending keys) when any key is missing from
`fieldnames`. -/
def writeCsvRow (p : Publication) : Except (List PyStr) (List PyStr) :=
  match wrongFields pubFieldKeys csvFieldnames with
  | [] => Except.ok (pubRow p)
  | wrong => Except.error wrong

/-- `save_to_csv` (lines 953-969): the header row followed by one row per
record, or the `ValueError` raised by the first failing `writerow`. -/
def save_to_csv (pubs : List Publication) :
    Except (List PyStr) (List (List PyStr)) :=
  (pubs.mapM writeCsvRow).map (fun rows => csvFieldnames :: rows)

/-- A default record used for out-of-range heap reads (never reached for
well-formed reference lists). -/
def defaultPub : Publication := { title := [], authors := [], year := none }

instance : Inhabited Publication := ⟨defaultPub⟩

/-- First reference stored under a key in the imperative dict, if any. -/
def lookupRef : List (PyStr × Nat) → PyStr → Option Nat
  | [], _ => none
  | (k', r) :: rest, k => if k' = k then some r else lookupRef rest k

/-- The imperative merge loop as executed by Python, with object identity
made explicit: `store` is the heap of `Publication` objects, the input is a
list of references into it, and the dict `acc` maps keys to references.  A
duplicate key mutates the already-stored primary object in place. -/
def mergeImplGo : List Nat → List (PyStr × Nat) → List Publication →
    List (PyStr × Nat) × List Publication
  | [], acc, store => (acc, store)
  | r :: rest, acc, store =>
    let p := store.getD r defaultPub
    match lookupRef acc (pubKey p) with
    | none => mergeImplGo rest (acc ++ [(pubKey p, r)]) store
    | some r0 =>
      mergeImplGo rest acc (store.set r0 (mergeInto (store.getD r0 defaultPub) p))

/-- Running the imperative `merge_publications` on a heap of records (one
reference per record, in order): returns the references of the surviving
primaries and the final state of the heap. -/
def merge_publications_impl (store : List Publication) :
    List Nat × List Publication :=
  let res := mergeImplGo (List.range store.length) [] store
  (res.1.map Prod.snd, res.2)

/-- Reading the dict of the imperative loop back into the association list of
the pure loop. -/
def readback (store : List Publication) (acc : List (PyStr × Nat)) :
    List (PyStr × Publication) :=
  acc.map (fun kr => (kr.1, store.getD kr.2 defaultPub))

/-- A record with a DOI. -/
def pubFooDoi : Publication :=
  { title := ("foo").data, authors := [], year := some 2020,
    doi := some (("10.1/x").data), source := ("A").data }

/-- A record with the same title and year as `pubFooDoi` but no DOI. -/
def pubFooNoDoi : Publication :=
  { title := ("foo").data, authors := [], year := some 2020,
    source := ("B").data }

/-- A record with zero citations, no year, and a DOI. -/
def pubCiteA : Publication :=
  { title := ("t").data, authors := [], year := none,
    doi := some (("10.2/y").data), citations := some 0,
    source := ("A").data }

/-- A record with the same DOI as `pubCiteA`, a year and five citations. -/
def pubCiteB : Publication :=
  { title := ("t").data, authors := [], year := some 2020,
    doi := some (("10.2/y").data), citations := some 5,
    source := ("B").data }

/-- A record whose DOI equals that of `pubSrcB` up to case. -/
def pubSrcA : Publication :=
  { title := ("u").data, authors := [], year := some 2001,
    doi := some (("10.3/z").data), source := ("A").data }

/-- A record whose DOI equals that of `pubSrcA` up to case. -/
def pubSrcB : Publication :=
  { title := ("v").data, authors := [], year := some 2002,
    doi := some (("10.3/Z").data), source := ("B").data }

/-- Three distinct records sharing the year 1999. -/
def pubY1 : Publication :=
  { title := ("p1").data, authors := [], year := some 1999,
    source := ("S1").data }

/-- Second record of the year-1999 triple. -/
def pubY2 : Publication :=
  { title := ("p2").data, authors := [], year := some 1999,
    source := ("S2").data }

/-- Third record of the year-1999 triple. -/
def pubY3 : Publication :=
  { title := ("p3").data, authors := [], year := some 1999,
    source := ("S3").data }

theorem natCharsRevGo_congr :
    ∀ f1 f2 n : Nat, n < f1 → n < f2 → natCharsRevGo f1 n = natCharsRevGo f2 n := by
  intro f1
  induction f1 with
  | zero => intro f2 n h1 h2; exact absurd h1 (Nat.not_lt_zero n)
  | succ f ih =>
    intro f2 n h1 h2
    cases f2 with
    | zero => exact absurd h2 (Nat.not_lt_zero n)
    | succ g =>
      simp only [natCharsRevGo]
      by_cases h : n < 10
      · simp [h]
      · simp only [h, if_false]
        exact congrArg (List.cons (Nat.digitChar (n % 10)))
          (ih g (n / 10) (by omega) (by omega))

theorem natCharsRev_eq (n : Nat) :
    natCharsRev n =
      if n < 10 then [Nat.digitChar n]
      else Nat.digitChar (n % 10) :: natCharsRev (n / 10) := by
  unfold natCharsRev
  simp only [natCharsRevGo]
  by_cases h : n < 10
  · simp [h]
  · simp only [h, if_false]
    exact congrArg (List.cons (Nat.digitChar (n % 10)))
      (natCharsRevGo_congr n (n / 10 + 1) (n / 10) (by omega) (by omega))

theorem natCharsRev_ne_nil (n : Nat) : natCharsRev n ≠ [] := by
  rw [natCharsRev_eq]; split <;> simp

theorem digitChar_inj10 :
    ∀ m < 10, ∀ n < 10, Nat.digitChar m = Nat.digitChar n → m = n := by decide

theorem digitChar_isDigit : ∀ n < 10, (Nat.digitChar n).isDigit = true := by decide

theorem natCharsRev_digits (n : Nat) :
    ∀ c ∈ natCharsRev n, c.isDigit = true := by
  induction n using Nat.strong_induction_on with
  | _ n ih =>
    intro c hc
    rw [natCharsRev_eq] at hc
    by_cases h : n < 10
    · simp [h] at hc
      subst hc
      exact digitChar_isDigit n h
    · simp [h] at hc
      rcases hc with hc | hc
      · subst hc
        exact digitChar_isDigit (n % 10) (Nat.mod_lt n (by omega))
      · exact ih (n / 10) (by omega) c hc

theorem natCharsRev_inj :
    ∀ m n : Nat, natCharsRev m = natCharsRev n → m = n := by
  intro m
  induction m using Nat.strong_induction_on with
  | _ m ih =>
    intro n h
    rw [natCharsRev_eq m, natCharsRev_eq n] at h
    by_cases hm : m < 10 <;> by_cases hn : n < 10 <;> simp [hm, hn] at h
    · exact digitChar_inj10 m hm n hn h
    · exact absurd h.2 (natCharsRev_ne_nil (n / 10))
    · exact absurd h.2 (natCharsRev_ne_nil (m / 10))
    · have h1 : m % 10 = n % 10 :=
        digitChar_inj10 _ (Nat.mod_lt m (by omega)) _ (Nat.mod_lt n (by omega)) h.1
      have h2 : m / 10 = n / 10 := ih (m / 10) (by omega) (n / 10) h.2
      omega

theorem pyNatStr_inj (m n : Nat) (h : pyNatStr m = pyNatStr n) : m = n :=
  natCharsRev_inj m n (List.reverse_inj.mp h)

theorem pyNatStr_digits (n : Nat) : ∀ c ∈ pyNatStr n, c.isDigit = true := by
  intro c hc
  exact natCharsRev_digits n c (List.mem_reverse.mp hc)

theorem isDigit_ne_underscore (c : Char) (h : c.isDigit = true) : c ≠ '_' := by
  intro he
  subst he
  simp [Char.isDigit] at h

theorem underscore_not_mem_pyOptNatStr (y : Option Nat) :
    ('_') ∉ pyOptNatStr y := by
  cases y with
  | none => decide
  | some n =>
    intro hm
    exact isDigit_ne_underscore '_' (pyNatStr_digits n '_' hm) rfl

theorem pyOptNatStr_inj (y1 y2 : Option Nat)
    (h : pyOptNatStr y1 = pyOptNatStr y2) : y1 = y2 := by
  cases y1 with
  | none =>
    cases y2 with
    | none => rfl
    | some n =>
      have hN : ('N') ∈ pyNatStr n := by
        rw [show pyNatStr n = pyOptNatStr (some n) from rfl, ← h]
        decide
      exact absurd (pyNatStr_digits n 'N' hN) (by decide)
  | some m =>
    cases y2 with
    | none =>
      have hN : ('N') ∈ pyNatStr m := by
        rw [show pyNatStr m = pyOptNatStr (some m) from rfl, h]
        decide
      exact absurd (pyNatStr_digits m 'N' hN) (by decide)
    | some n => exact congrArg some (pyNatStr_inj m n h)

theorem underscore_split :
    ∀ t1 t2 s1 s2 : List Char, ('_') ∉ s1 → ('_') ∉ s2 →
      t1 ++ '_' :: s1 = t2 ++ '_' :: s2 → t1 = t2 ∧ s1 = s2 := by
  intro t1
  induction t1 with
  | nil =>
    intro t2 s1 s2 h1 h2 h
    cases t2 with
    | nil =>
      simp only [List.nil_append, List.cons.injEq] at h
      exact ⟨rfl, h.2⟩
    | cons c t2' =>
      simp only [List.nil_append, List.cons_append, List.cons.injEq] at h
      exfalso
      apply h1
      rw [h.2]
      exact List.mem_append_right _ (List.mem_cons_self _ _)
  | cons c t1' ih =>
    intro t2 s1 s2 h1 h2 h
    cases t2 with
    | nil =>
      simp only [List.nil_append, List.cons_append, List.cons.injEq] at h
      exfalso
      apply h2
      rw [← h.2]
      exact List.mem_append_right _ (List.mem_cons_self _ _)
    | cons d t2' =>
      simp only [List.cons_append, List.cons.injEq] at h
      obtain ⟨ht, hs⟩ := ih t2' s1 s2 h1 h2 h.2
      exact ⟨by rw [h.1, ht], hs⟩

theorem titleYearKey_eq_iff (p q : Publication) :
    titleYearKey p = titleYearKey q ↔
      pyLower p.title = pyLower q.title ∧ p.year = q.year := by
  constructor
  · intro h
    obtain ⟨ht, hy⟩ :=
      underscore_split (pyLower p.title) (pyLower q.title)
        (pyOptNatStr p.year) (pyOptNatStr q.year)
        (underscore_not_mem_pyOptNatStr p.year)
        (underscore_not_mem_pyOptNatStr q.year) h
    exact ⟨ht, pyOptNatStr_inj p.year q.year hy⟩
  · rintro ⟨h1, h2⟩
    unfold titleYearKey
    rw [h1, h2]

theorem pubKey_of_hasDoi (p : Publication) (h : hasDoi p = true) :
    pubKey p = pyLower (doiStr p) := by
  cases hd : p.doi with
  | none => simp [hasDoi, pyStrTruthy, hd] at h
  | some d =>
    simp only [hasDoi, pyStrTruthy, hd, Bool.not_eq_true'] at h
    simp [pubKey, doiStr, hd, h]

theorem pubKey_of_not_hasDoi (p : Publication) (h : hasDoi p = false) :
    pubKey p = titleYearKey p := by
  cases hd : p.doi with
  | none => simp [pubKey, hd]
  | some d =>
    simp only [hasDoi, pyStrTruthy, hd, Bool.not_eq_false'] at h
    simp [pubKey, hd, h]

theorem pubKey_eq_iff (p q : Publication) :
    pubKey p = pubKey q ↔
      (hasDoi p = true ∧ hasDoi q = true ∧
        pyLower (doiStr p) = pyLower (doiStr q))
      ∨ (hasDoi p = false ∧ hasDoi q = false ∧
          pyLower p.title = pyLower q.title ∧ p.year = q.year)
      ∨ (hasDoi p = true ∧ hasDoi q = false ∧
          pyLower (doiStr p) = titleYearKey q)
      ∨ (hasDoi p = false ∧ hasDoi q = true ∧
          titleYearKey p = pyLower (doiStr q)) := by
  cases hp : hasDoi p <;> cases hq : hasDoi q
  · rw [pubKey_of_not_hasDoi p hp, pubKey_of_not_hasDoi q hq]
    simp [hp, hq, titleYearKey_eq_iff]
  · rw [pubKey_of_not_hasDoi p hp, pubKey_of_hasDoi q hq]
    simp [hp, hq]
  · rw [pubKey_of_hasDoi p hp, pubKey_of_not_hasDoi q hq]
    simp [hp, hq]
  · rw [pubKey_of_hasDoi p hp, pubKey_of_hasDoi q hq]
    simp [hp, hq]

theorem merge_two_length (p q : Publication) :
    (merge_publications [p, q]).length =
      if pubKey p = pubKey q then 1 else 2 := by
  simp only [merge_publications, List.foldl, mergeStep, insertPub]
  by_cases h : pubKey p = pubKey q
  · simp [h]
  · simp [h, insertPub]

theorem mergeInto_title (a b : Publication) : (mergeInto a b).title = a.title := rfl

theorem mergeInto_year (a b : Publication) : (mergeInto a b).year = a.year := rfl

theorem mergeInto_doi (a b : Publication) : (mergeInto a b).doi = a.doi := rfl

theorem pubKey_mergeInto (a b : Publication) :
    pubKey (mergeInto a b) = pubKey a := rfl

/-- **C1**, counterexample.  Two records with equal title and year, of which
exactly one carries a DOI, do *not* merge into one record: the DOI-bearing
record is keyed by its DOI, the other by title+year, and the two keys differ,
so `merge_publications` emits two records.  This refutes the claimed "at least
one of the two lacks a DOI" fallback (and hence the claimed iff). -/
theorem merge_pair_one_doi_cex :
    pubFooDoi.title = pubFooNoDoi.title ∧ pubFooDoi.year = pubFooNoDoi.year ∧
    hasDoi pubFooDoi = true ∧ pubFooNoDoi.doi = none ∧
    (merge_publications [pubFooDoi, pubFooNoDoi]).length = 2 := by decide

/-- **C1**, amended.  Two records are merged under one identity key iff their
`pubKey` strings coincide, i.e. iff (a) both have a non-empty DOI and the
DOIs are equal case-insensitively, or (b) *both* lack a (non-empty) DOI and
their lowercased titles and their years are equal (two absent years counting
as equal), or (c) exactly one of the two has a DOI whose lowercasing happens
to equal the other record's `title.lower()_year` fallback string.  In
particular a record with a DOI and one without never merge on equal
title+year alone. -/
theorem merge_pair_iff_identity_key (p q : Publication) :
    (merge_publications [p, q]).length = 1 ↔
      (hasDoi p = true ∧ hasDoi q = true ∧
        pyLower (doiStr p) = pyLower (doiStr q))
      ∨ (hasDoi p = false ∧ hasDoi q = false ∧
          pyLower p.title = pyLower q.title ∧ p.year = q.year)
      ∨ (hasDoi p = true ∧ hasDoi q = false ∧
          pyLower (doiStr p) = titleYearKey q)
      ∨ (hasDoi p = false ∧ hasDoi q = true ∧
          titleYearKey p = pyLower (doiStr q)) := by
  rw [← pubKey_eq_iff, merge_two_length]
  by_cases h : pubKey p = pubKey q <;> simp [h]

theorem list_isEmpty_false {α : Type} {l : List α} (h : l ≠ []) :
    l.isEmpty = false := by
  cases l with
  | nil => exact absurd rfl h
  | cons x xs => rfl

theorem fillStrField_of_truthy (a b : Option PyStr) (h : pyStrTruthy a = true) :
    fillStrField a b = a := by
  simp [fillStrField, h]

theorem fillStrField_of_falsy (a b : Option PyStr) (h1 : pyStrTruthy a = false)
    (h2 : pyStrTruthy b = true) : fillStrField a b = b := by
  simp [fillStrField, h1, h2]

theorem fillNatField_of_truthy (a b : Option Nat) (h : pyNatTruthy a = true) :
    fillNatField a b = a := by
  simp [fillNatField, h]

theorem fillNatField_of_falsy (a b : Option Nat) (h1 : pyNatTruthy a = false)
    (h2 : pyNatTruthy b = true) : fillNatField a b = b := by
  simp [fillNatField, h1, h2]

/-- **C2**, counterexample.  `pubCiteA` and `pubCiteB` share a DOI (one
identity key).  Merging them (a) overwrites the primary's non-`None`
citations value `0` with the secondary's `5`, because `not existing.citations`
is true for the integer `0` in Python, and (b) does *not* fill the primary's
absent `year` from the secondary, because `year` is not among the fields the
merge loop copies.  Both refute the claim as stated. -/
theorem merge_fill_cex :
    pubCiteA.citations = some 0 ∧ pubCiteA.citations ≠ none ∧
    pubCiteA.year = none ∧ pubCiteB.year = some 2020 ∧
    pubKey pubCiteA = pubKey pubCiteB ∧
    (merge_publications [pubCiteA, pubCiteB]).map Publication.citations
      = [some 5] ∧
    (merge_publications [pubCiteA, pubCiteB]).map Publication.year = [none] := by
  decide

/-- **C2**, amended.  Merging an incoming record `b` into the primary `a`
always sets `source` to the comma-joined concatenation of both source labels;
never changes `title`, `year` or `doi` (so an empty `year`/`doi` of `a` is
*not* filled from `b`); and for each of the ten fields the loop copies
(`authors`, `journal`, `abstract`, `url`, `volume`, `issue`, `pages`,
`publisher`, `citations`, `type`) keeps `a`'s value whenever it is truthy in
Python's sense (non-empty list/string, non-zero integer — a citations value
of `0` counts as empty and may be overwritten) and fills it with `b`'s value
whenever `a`'s is falsy and `b`'s is truthy. -/
theorem mergeInto_fill_spec (a b : Publication) :
    (mergeInto a b).source = a.source ++ (", ").data ++ b.source
    ∧ (mergeInto a b).title = a.title
    ∧ (mergeInto a b).year = a.year
    ∧ (mergeInto a b).doi = a.doi
    ∧ (a.authors ≠ [] → (mergeInto a b).authors = a.authors)
    ∧ (a.authors = [] → b.authors ≠ [] → (mergeInto a b).authors = b.authors)
    ∧ (pyStrTruthy a.journal = true → (mergeInto a b).journal = a.journal)
    ∧ (pyStrTruthy a.journal = false → pyStrTruthy b.journal = true →
        (mergeInto a b).journal = b.journal)
    ∧ (pyStrTruthy a.abstract = true → (mergeInto a b).abstract = a.abstract)
    ∧ (pyStrTruthy a.abstract = false → pyStrTruthy b.abstract = true →
        (mergeInto a b).abstract = b.abstract)
    ∧ (pyStrTruthy a.url = true → (mergeInto a b).url = a.url)
    ∧ (pyStrTruthy a.url = false → pyStrTruthy b.url = true →
        (mergeInto a b).url = b.url)
    ∧ (pyStrTruthy a.volume = true → (mergeInto a b).volume = a.volume)
    ∧ (pyStrTruthy a.volume = false → pyStrTruthy b.volume = true →
        (mergeInto a b).volume = b.volume)
    ∧ (pyStrTruthy a.issue = true → (mergeInto a b).issue = a.issue)
    ∧ (pyStrTruthy a.issue = false → pyStrTruthy b.issue = true →
        (mergeInto a b).issue = b.issue)
    ∧ (pyStrTruthy a.pages = true → (mergeInto a b).pages = a.pages)
    ∧ (pyStrTruthy a.pages = false → pyStrTruthy b.pages = true →
        (mergeInto a b).pages = b.pages)
    ∧ (pyStrTruthy a.publisher = true → (mergeInto a b).publisher = a.publisher)
    ∧ (pyStrTruthy a.publisher = false → pyStrTruthy b.publisher = true →
        (mergeInto a b).publisher = b.publisher)
    ∧ (pyNatTruthy a.citations = true → (mergeInto a b).citations = a.citations)
    ∧ (pyNatTruthy a.citations = false → pyNatTruthy b.citations = true →
        (mergeInto a b).citations = b.citations)
    ∧ (pyStrTruthy a.type = true → (mergeInto a b).type = a.type)
    ∧ (pyStrTruthy a.type = false → pyStrTruthy b.type = true →
        (mergeInto a b).type = b.type) := by
  refine ⟨rfl, rfl, rfl, rfl,
    fun h => by simp [mergeInto, list_isEmpty_false h],
    fun h1 h2 => by simp [mergeInto, h1, list_isEmpty_false h2],
    fun h => fillStrField_of_truthy a.journal b.journal h,
    fun h1 h2 => fillStrField_of_falsy a.journal b.journal h1 h2,
    fun h => fillStrField_of_truthy a.abstract b.abstract h,
    fun h1 h2 => fillStrField_of_falsy a.abstract b.abstract h1 h2,
    fun h => fillStrField_of_truthy a.url b.url h,
    fun h1 h2 => fillStrField_of_falsy a.url b.url h1 h2,
    fun h => fillStrField_of_truthy a.volume b.volume h,
    fun h1 h2 => fillStrField_of_falsy a.volume b.volume h1 h2,
    fun h => fillStrField_of_truthy a.issue b.issue h,
    fun h1 h2 => fillStrField_of_falsy a.issue b.issue h1 h2,
    fun h => fillStrField_of_truthy a.pages b.pages h,
    fun h1 h2 => fillStrField_of_falsy a.pages b.pages h1 h2,
    fun h => fillStrField_of_truthy a.publisher b.publisher h,
    fun h1 h2 => fillStrField_of_falsy a.publisher b.publisher h1 h2,
    fun h => fillNatField_of_truthy a.citations b.citations h,
    fun h1 h2 => fillNatField_of_falsy a.citations b.citations h1 h2,
    fun h => fillStrField_of_truthy a.type b.type h,
    fun h1 h2 => fillStrField_of_falsy a.type b.type h1 h2⟩

theorem keys_insertPub (acc : List (PyStr × Publication)) (k : PyStr)
    (p : Publication) :
    (insertPub acc k p).map Prod.fst =
      if k ∈ acc.map Prod.fst then acc.map Prod.fst
      else acc.map Prod.fst ++ [k] := by
  induction acc with
  | nil => simp [insertPub]
  | cons kq rest ih =>
    obtain ⟨k', q⟩ := kq
    simp only [insertPub]
    by_cases h : k' = k
    · subst h
      simp
    · by_cases h2 : k ∈ rest.map Prod.fst
      · simp [h, h2, ih, Ne.symm h]
      · simp [h, h2, ih, Ne.symm h]

theorem nodup_keys_insertPub (acc : List (PyStr × Publication)) (k : PyStr)
    (p : Publication) (h : (acc.map Prod.fst).Nodup) :
    ((insertPub acc k p).map Prod.fst).Nodup := by
  rw [keys_insertPub]
  split
  · exact h
  · next hk =>
    rw [List.nodup_append]
    exact ⟨h, List.nodup_singleton k, by simpa using hk⟩

theorem mem_keys_foldl (l : List Publication) :
    ∀ (acc : List (PyStr × Publication)) (k : PyStr),
      k ∈ (l.foldl mergeStep acc).map Prod.fst ↔
        k ∈ acc.map Prod.fst ∨ k ∈ l.map pubKey := by
  induction l with
  | nil => simp
  | cons p rest ih =>
    intro acc k
    simp only [List.foldl_cons, List.map_cons, List.mem_cons, mergeStep]
    rw [ih, keys_insertPub]
    split
    · next hmem =>
      constructor
      · rintro (h | h)
        · exact Or.inl h
        · exact Or.inr (Or.inr h)
      · rintro (h | h | h)
        · exact Or.inl h
        · exact Or.inl (h ▸ hmem)
        · exact Or.inr h
    · next hmem =>
      simp only [List.mem_append, List.mem_singleton]
      constructor
      · rintro ((h | h) | h)
        · exact Or.inl h
        · exact Or.inr (Or.inl h)
        · exact Or.inr (Or.inr h)
      · rintro (h | h | h)
        · exact Or.inl (Or.inl h)
        · exact Or.inl (Or.inr h)
        · exact Or.inr h

theorem nodup_keys_foldl (l : List Publication) :
    ∀ acc, (acc.map Prod.fst).Nodup →
      ((l.foldl mergeStep acc).map Prod.fst).Nodup := by
  induction l with
  | nil => intro acc h; simpa using h
  | cons p rest ih =>
    intro acc h
    exact ih _ (nodup_keys_insertPub acc (pubKey p) p h)

theorem keyConsistent_insertPub (acc : List (PyStr × Publication)) (k : PyStr)
    (p : Publication) (hk : pubKey p = k)
    (h : ∀ kp ∈ acc, pubKey kp.2 = kp.1) :
    ∀ kp ∈ insertPub acc k p, pubKey kp.2 = kp.1 := by
  induction acc with
  | nil =>
    intro kp hkp
    simp [insertPub] at hkp
    subst hkp
    exact hk
  | cons kq rest ih =>
    obtain ⟨k', q⟩ := kq
    intro kp hkp
    simp only [insertPub] at hkp
    by_cases he : k' = k
    · simp only [he, if_true] at hkp
      rcases List.mem_cons.mp hkp with h1 | h1
      · subst h1
        show pubKey (mergeInto q p) = k
        rw [pubKey_mergeInto]
        rw [← he]
        exact h (k', q) (List.mem_cons_self _ _)
      · exact h kp (List.mem_cons_of_mem _ h1)
    · simp only [he, if_false] at hkp
      rcases List.mem_cons.mp hkp with h1 | h1
      · subst h1
        exact h (k', q) (List.mem_cons_self _ _)
      · exact ih (fun kp hkp => h kp (List.mem_cons_of_mem _ hkp)) kp h1

theorem keyConsistent_foldl (l : List Publication) :
    ∀ acc, (∀ kp ∈ acc, pubKey kp.2 = kp.1) →
      ∀ kp ∈ l.foldl mergeStep acc, pubKey kp.2 = kp.1 := by
  induction l with
  | nil => intro acc h; simpa using h
  | cons p rest ih =>
    intro acc h
    exact ih _ (keyConsistent_insertPub acc (pubKey p) p rfl h)

theorem merge_publications_keys (l : List Publication) :
    (merge_publications l).map pubKey = (l.foldl mergeStep []).map Prod.fst := by
  unfold merge_publications
  rw [List.map_map]
  exact List.map_congr_left
    (fun kp hkp => keyConsistent_foldl l [] (by simp) kp hkp)

theorem insertPub_of_not_mem (acc : List (PyStr × Publication)) (k : PyStr)
    (p : Publication) (h : k ∉ acc.map Prod.fst) :
    insertPub acc k p = acc ++ [(k, p)] := by
  induction acc with
  | nil => simp [insertPub]
  | cons kq rest ih =>
    obtain ⟨k', q⟩ := kq
    simp only [List.map_cons, List.mem_cons, not_or] at h
    simp only [insertPub, Ne.symm h.1, if_false, List.cons_append]
    rw [ih h.2]

theorem foldl_of_nodup_keys (l : List Publication) :
    ∀ acc, (acc.map Prod.fst ++ l.map pubKey).Nodup →
      l.foldl mergeStep acc = acc ++ l.map (fun p => (pubKey p, p)) := by
  induction l with
  | nil => intro acc h; simp
  | cons p rest ih =>
    intro acc h
    have hk : pubKey p ∉ acc.map Prod.fst := by
      rw [List.nodup_append] at h
      intro hc
      exact h.2.2 hc (by simp)
    simp only [List.foldl_cons, mergeStep]
    rw [insertPub_of_not_mem acc (pubKey p) p hk]
    rw [ih (acc ++ [(pubKey p, p)]) (by simpa using h)]
    simp

theorem merge_publications_of_nodup_keys (l : List Publication)
    (h : (l.map pubKey).Nodup) : merge_publications l = l := by
  unfold merge_publications
  rw [foldl_of_nodup_keys l [] (by simpa using h)]
  simp only [List.nil_append, List.map_map]
  exact (List.map_congr_left fun a _ => rfl).trans (List.map_id l)

/-- **C3**, counterexample.  `[pubSrcA, pubSrcB]` and its permutation
`[pubSrcB, pubSrcA]` reconcile to the same single identity key, but the
surviving record's field content differs between the two orders: the survivor
keeps the title of whichever record came first, and the accumulated `source`
strings are `"A, B"` and `"B, A"` respectively.  This refutes the claim that
the surviving record has the same final field content under permutation. -/
theorem merge_perm_content_cex :
    (List.Perm [pubSrcA, pubSrcB] [pubSrcB, pubSrcA]) ∧
    (merge_publications [pubSrcA, pubSrcB]).map pubKey =
      (merge_publications [pubSrcB, pubSrcA]).map pubKey ∧
    (merge_publications [pubSrcA, pubSrcB]).map Publication.source
      = [(("A, B").data)] ∧
    (merge_publications [pubSrcB, pubSrcA]).map Publication.source
      = [(("B, A").data)] ∧
    (merge_publications [pubSrcA, pubSrcB]).map Publication.title
      = [(("u").data)] ∧
    (merge_publications [pubSrcB, pubSrcA]).map Publication.title
      = [(("v").data)] := by
  decide

/-- **C3**, amended.  For any permutation of a finite input sequence,
`merge_publications` produces the same *set of identity keys* (first-seen
emission order may differ); the surviving records' field content, however, is
not permutation-invariant: which record becomes primary (hence its `title`,
`year`, `doi` and the fill order of the remaining fields) and the
concatenation order of `source` depend on the input order. -/
theorem merge_keys_perm_invariant (l l' : List Publication)
    (h : l.Perm l') (k : PyStr) :
    k ∈ (merge_publications l).map pubKey ↔
      k ∈ (merge_publications l').map pubKey := by
  rw [merge_publications_keys, merge_publications_keys,
    mem_keys_foldl, mem_keys_foldl]
  simp only [List.map_nil, List.not_mem_nil, false_or]
  exact (h.map pubKey).mem_iff

/-- Witness for `merge_keys_perm_invariant` at a concrete permuted pair. -/
theorem merge_keys_perm_invariant_witness :
    (pubKey pubSrcA) ∈ (merge_publications [pubSrcA, pubSrcB]).map pubKey ↔
      (pubKey pubSrcA) ∈ (merge_publications [pubSrcB, pubSrcA]).map pubKey :=
  merge_keys_perm_invariant [pubSrcA, pubSrcB] [pubSrcB, pubSrcA]
    (by decide) (pubKey pubSrcA)

/-- **C4**.  Reconciliation is idempotent: reconciling the output of
`merge_publications` again yields the very same sequence (in particular the
same record set): the output's identity keys are pairwise distinct, and on a
sequence with pairwise distinct keys the merge loop never merges, so every
record passes through unchanged. -/
theorem merge_publications_idempotent (l : List Publication) :
    merge_publications (merge_publications l) = merge_publications l := by
  apply merge_publications_of_nodup_keys
  rw [merge_publications_keys]
  exact nodup_keys_foldl l [] (by simp)

/-- **C10**.  Merging never changes the `title`, `year` or `doi` of the
surviving primary record, so every output record still carries the identity
key under which it was first inserted, and the identity keys of the output
records are pairwise distinct for every input sequence. -/
theorem merge_identity_keys_distinct :
    (∀ a b : Publication, (mergeInto a b).title = a.title ∧
      (mergeInto a b).year = a.year ∧ (mergeInto a b).doi = a.doi ∧
      pubKey (mergeInto a b) = pubKey a) ∧
    ∀ l : List Publication, ((merge_publications l).map pubKey).Nodup := by
  refine ⟨fun a b => ⟨rfl, rfl, rfl, rfl⟩, fun l => ?_⟩
  rw [merge_publications_keys]
  exact nodup_keys_foldl l [] (by simp)

theorem pubKeyChecked_eq (p : Publication) :
    pubKeyChecked p = some (pubKey p) := by
  unfold pubKeyChecked optLower
  cases hd : p.doi with
  | none => simp [pyStrTruthy, pubKey, hd]
  | some d =>
    by_cases he : d.isEmpty
    · simp [pyStrTruthy, pubKey, hd, he]
    · simp [pyStrTruthy, pubKey, hd, he]

theorem foldlM_checked (l : List Publication) :
    ∀ acc, l.foldlM mergeStepChecked acc = some (l.foldl mergeStep acc) := by
  induction l with
  | nil => intro acc; rfl
  | cons p rest ih =>
    intro acc
    rw [List.foldlM_cons]
    show (mergeStepChecked acc p).bind _ = _
    rw [show mergeStepChecked acc p = some (mergeStep acc p) by
      simp [mergeStepChecked, pubKeyChecked_eq, mergeStep]]
    exact ih (mergeStep acc p)

/-- **C6**.  The reconciliation engine is total over every finite sequence of
well-formed records: running `merge_publications` with every attribute access
on an optional value modelled explicitly in the `Option` monad (where `none`
would be an uncaught `AttributeError`) never fails — for any combination of
absent optional fields it returns `some` of the pure result, i.e. it always
returns a result sequence. -/
theorem merge_publications_checked_total (l : List Publication) :
    merge_publications_checked l = some (merge_publications l) := by
  unfold merge_publications_checked merge_publications
  rw [foldlM_checked l []]
  rfl

theorem getD_set_ne (store : List Publication) (i j : Nat) (v : Publication)
    (h : i ≠ j) :
    (store.set i v).getD j defaultPub = store.getD j defaultPub := by
  rw [List.getD_eq_getElem?_getD, List.getD_eq_getElem?_getD,
    List.getElem?_set_ne h]

theorem getD_set_self (store : List Publication) (i : Nat) (v : Publication)
    (h : i < store.length) : (store.set i v).getD i defaultPub = v := by
  rw [List.getD_eq_getElem?_getD, List.getElem?_set_self h]
  rfl

theorem lookupRef_none_iff (acc : List (PyStr × Nat)) (k : PyStr) :
    lookupRef acc k = none ↔ k ∉ acc.map Prod.fst := by
  induction acc with
  | nil => simp [lookupRef]
  | cons kr rest ih =>
    obtain ⟨k', r'⟩ := kr
    by_cases he : k' = k
    · subst he
      simp [lookupRef]
    · simp [lookupRef, he, ih, Ne.symm he]

theorem lookupRef_some_mem (acc : List (PyStr × Nat)) (k : PyStr) (r : Nat)
    (h : lookupRef acc k = some r) : (k, r) ∈ acc := by
  induction acc with
  | nil => simp [lookupRef] at h
  | cons kr rest ih =>
    obtain ⟨k', r'⟩ := kr
    simp only [lookupRef] at h
    by_cases he : k' = k
    · rw [if_pos he] at h
      injection h with h
      subst h
      subst he
      exact List.mem_cons_self _ _
    · rw [if_neg he] at h
      exact List.mem_cons_of_mem _ (ih h)

theorem readback_keys (store : List Publication) (acc : List (PyStr × Nat)) :
    (readback store acc).map Prod.fst = acc.map Prod.fst := by
  unfold readback
  rw [List.map_map]
  exact List.map_congr_left (fun a _ => rfl)

theorem readback_append (store : List Publication) (a b : List (PyStr × Nat)) :
    readback store (a ++ b) = readback store a ++ readback store b := by
  unfold readback
  exact List.map_append _ a b

theorem readback_set_not_mem (store : List Publication)
    (acc : List (PyStr × Nat)) (r : Nat) (v : Publication)
    (h : r ∉ acc.map Prod.snd) :
    readback (store.set r v) acc = readback store acc := by
  unfold readback
  apply List.map_congr_left
  intro kr hkr
  have hne : r ≠ kr.2 := by
    intro heq
    exact h (heq ▸ List.mem_map_of_mem Prod.snd hkr)
  rw [getD_set_ne store r kr.2 v hne]

theorem mergeImplGo_cons (r : Nat) (rest : List Nat)
    (acc : List (PyStr × Nat)) (store : List Publication) :
    mergeImplGo (r :: rest) acc store =
      match lookupRef acc (pubKey (store.getD r defaultPub)) with
      | none =>
        mergeImplGo rest (acc ++ [(pubKey (store.getD r defaultPub), r)]) store
      | some r0 =>
        mergeImplGo rest acc
          (store.set r0
            (mergeInto (store.getD r0 defaultPub) (store.getD r defaultPub))) :=
  rfl

theorem readback_set_insert (acc : List (PyStr × Nat))
    (store : List Publication) (k : PyStr) (r0 : Nat) (p : Publication)
    (hnd : (acc.map Prod.snd).Nodup) (hl : lookupRef acc k = some r0)
    (hr0 : r0 < store.length) :
    readback (store.set r0 (mergeInto (store.getD r0 defaultPub) p)) acc =
      insertPub (readback store acc) k p := by
  induction acc with
  | nil => simp [lookupRef] at hl
  | cons kr rest ih =>
    obtain ⟨k', r'⟩ := kr
    simp only [lookupRef] at hl
    have htail : (rest.map Prod.snd).Nodup := (by simpa using hnd : (r' :: rest.map Prod.snd).Nodup).of_cons
    by_cases he : k' = k
    · rw [if_pos he] at hl
      injection hl with hl
      subst hl
      show (k', (store.set r' _).getD r' defaultPub) ::
          readback (store.set r' _) rest =
        insertPub ((k', store.getD r' defaultPub) :: readback store rest) k p
      rw [insertPub, if_pos he]
      have hr'rest : r' ∉ rest.map Prod.snd := by
        have := (by simpa using hnd : (r' :: rest.map Prod.snd).Nodup)
        exact (List.nodup_cons.mp this).1
      rw [getD_set_self store r' _ hr0,
        readback_set_not_mem store rest r' _ hr'rest]
    · rw [if_neg he] at hl
      have hr0rest : r0 ∈ rest.map Prod.snd :=
        List.mem_map_of_mem Prod.snd (lookupRef_some_mem rest k r0 hl)
      have hne : r0 ≠ r' := by
        intro heq
        have := (by simpa using hnd : (r' :: rest.map Prod.snd).Nodup)
        exact (List.nodup_cons.mp this).1 (heq ▸ hr0rest)
      show (k', (store.set r0 _).getD r' defaultPub) ::
          readback (store.set r0 _) rest =
        insertPub ((k', store.getD r' defaultPub) :: readback store rest) k p
      rw [insertPub, if_neg he, getD_set_ne store r0 r' _ hne,
        ih htail hl]

theorem mergeImplGo_cons_none (r : Nat) (rest : List Nat)
    (acc : List (PyStr × Nat)) (store : List Publication)
    (hl : lookupRef acc (pubKey (store.getD r defaultPub)) = none) :
    mergeImplGo (r :: rest) acc store =
      mergeImplGo rest (acc ++ [(pubKey (store.getD r defaultPub), r)]) store := by
  rw [mergeImplGo_cons, hl]

theorem mergeImplGo_cons_some (r r0 : Nat) (rest : List Nat)
    (acc : List (PyStr × Nat)) (store : List Publication)
    (hl : lookupRef acc (pubKey (store.getD r defaultPub)) = some r0) :
    mergeImplGo (r :: rest) acc store =
      mergeImplGo rest acc
        (store.set r0
          (mergeInto (store.getD r0 defaultPub) (store.getD r defaultPub))) := by
  rw [mergeImplGo_cons, hl]

theorem mergeImplGo_spec :
    ∀ (rs : List Nat) (acc : List (PyStr × Nat)) (store : List Publication),
      (acc.map Prod.snd ++ rs).Nodup →
      (∀ r ∈ acc.map Prod.snd, r < store.length) →
      (∀ r ∈ rs, r < store.length) →
      (acc.map Prod.fst).Nodup →
      readback (mergeImplGo rs acc store).2 (mergeImplGo rs acc store).1 =
        (rs.map (fun r => store.getD r defaultPub)).foldl mergeStep
          (readback store acc) := by
  intro rs
  induction rs with
  | nil =>
    intro acc store _ _ _ _
    rfl
  | cons r rest ih =>
    intro acc store hnd hba hbr hknd
    cases hl : lookupRef acc (pubKey (store.getD r defaultPub)) with
    | none =>
      have hknew : pubKey (store.getD r defaultPub) ∉ acc.map Prod.fst :=
        (lookupRef_none_iff acc _).mp hl
      rw [mergeImplGo_cons_none r rest acc store hl]
      have h1' : (((acc ++ [(pubKey (store.getD r defaultPub), r)]).map
          Prod.snd) ++ rest).Nodup := by
        rw [List.map_append, List.append_assoc]
        simpa using hnd
      have h2' : ∀ r' ∈ (acc ++ [(pubKey (store.getD r defaultPub), r)]).map
          Prod.snd, r' < store.length := by
        intro r' hr'
        rw [List.map_append] at hr'
        rcases List.mem_append.mp hr' with h | h
        · exact hba r' h
        · have : r' = r := by simpa using h
          subst this
          exact hbr r' (List.mem_cons_self _ _)
      have h3' : ∀ r' ∈ rest, r' < store.length :=
        fun r' hr' => hbr r' (List.mem_cons_of_mem _ hr')
      have h4' : ((acc ++ [(pubKey (store.getD r defaultPub), r)]).map
          Prod.fst).Nodup := by
        rw [List.map_append, List.nodup_append]
        refine ⟨hknd, by simp, ?_⟩
        intro a ha
        simp only [List.map_cons, List.map_nil, List.mem_singleton]
        intro heq
        exact hknew (heq ▸ ha)
      rw [ih (acc ++ [(pubKey (store.getD r defaultPub), r)]) store h1' h2' h3' h4']
      simp only [List.map_cons, List.foldl_cons]
      congr 1
      rw [readback_append]
      show readback store acc ++
          [(pubKey (store.getD r defaultPub), store.getD r defaultPub)] =
        mergeStep (readback store acc) (store.getD r defaultPub)
      rw [mergeStep, insertPub_of_not_mem _ _ _ (by rw [readback_keys]; exact hknew)]
    | some r0 =>
      have hmem := lookupRef_some_mem acc _ r0 hl
      have hr0snd : r0 ∈ acc.map Prod.snd := List.mem_map_of_mem Prod.snd hmem
      have hr0len : r0 < store.length := hba r0 hr0snd
      have haccnd : (acc.map Prod.snd).Nodup := (List.nodup_append.mp hnd).1
      have hdisj := (List.nodup_append.mp hnd).2.2
      have hr0notin : r0 ∉ r :: rest := List.disjoint_left.mp hdisj hr0snd
      rw [mergeImplGo_cons_some r r0 rest acc store hl]
      have h1' : (acc.map Prod.snd ++ rest).Nodup := by
        refine List.Sublist.nodup ?_ hnd
        rw [List.append_sublist_append_left]
        exact List.sublist_cons_self r rest
      have h2' : ∀ r' ∈ acc.map Prod.snd, r' <
          (store.set r0 (mergeInto (store.getD r0 defaultPub)
            (store.getD r defaultPub))).length := by
        intro r' hr'
        rw [List.length_set]
        exact hba r' hr'
      have h3' : ∀ r' ∈ rest, r' <
          (store.set r0 (mergeInto (store.getD r0 defaultPub)
            (store.getD r defaultPub))).length := by
        intro r' hr'
        rw [List.length_set]
        exact hbr r' (List.mem_cons_of_mem _ hr')
      rw [ih acc _ h1' h2' h3' hknd]
      have hrecs : rest.map (fun r' =>
          (store.set r0 (mergeInto (store.getD r0 defaultPub)
            (store.getD r defaultPub))).getD r' defaultPub) =
          rest.map (fun r' => store.getD r' defaultPub) := by
        apply List.map_congr_left
        intro r' hr'
        apply getD_set_ne
        intro heq
        exact hr0notin (heq ▸ List.mem_cons_of_mem _ hr')
      rw [hrecs,
        readback_set_insert acc store (pubKey (store.getD r defaultPub)) r0
          (store.getD r defaultPub) haccnd hl hr0len]
      simp only [List.map_cons, List.foldl_cons]
      rfl

theorem mergeImplGo_no_mutation :
    ∀ (rs : List Nat) (acc : List (PyStr × Nat)) (store : List Publication),
      (∀ r ∈ rs, pubKey (store.getD r defaultPub) ∉ acc.map Prod.fst) →
      (rs.map (fun r => pubKey (store.getD r defaultPub))).Nodup →
      (mergeImplGo rs acc store).2 = store := by
  intro rs
  induction rs with
  | nil => intro acc store _ _; rfl
  | cons r rest ih =>
    intro acc store h1 h2
    have hnone : lookupRef acc (pubKey (store.getD r defaultPub)) = none :=
      (lookupRef_none_iff acc _).mpr (h1 r (List.mem_cons_self _ _))
    rw [mergeImplGo_cons_none r rest acc store hnone]
    apply ih
    · intro r' hr'
      rw [List.map_append, List.mem_append]
      rintro (h | h)
      · exact h1 r' (List.mem_cons_of_mem _ hr') h
      · have heq : pubKey (store.getD r' defaultPub) =
            pubKey (store.getD r defaultPub) := by simpa using h
        have hmem : pubKey (store.getD r defaultPub) ∈
            rest.map (fun r'' => pubKey (store.getD r'' defaultPub)) := by
          rw [← heq]
          exact List.mem_map_of_mem _ hr'
        exact (List.nodup_cons.mp (by simpa using h2)).1 hmem
    · exact (List.nodup_cons.mp (by simpa using h2)).2

theorem range_getD (l : List Publication) :
    (List.range l.length).map (fun r => l.getD r defaultPub) = l := by
  apply List.ext_getElem
  · simp
  · intro i h1 h2
    rw [List.getElem_map]
    rw [List.getElem_range]
    exact List.getD_eq_getElem l defaultPub h2

/-- **C5**, counterexample.  The engine does mutate its input: running the
imperative merge on the heap `[pubCiteA, pubCiteB]` (two records with one
shared identity key) leaves the heap changed — the object that held
`pubCiteA` (heap slot 0, an input record) now carries `source = "A, B"`
instead of its original `"A"`.  This refutes the claim that every input
record is unchanged after the engine returns. -/
theorem merge_impl_mutates_cex :
    (merge_publications_impl [pubCiteA, pubCiteB]).2 ≠ [pubCiteA, pubCiteB] ∧
    ((merge_publications_impl [pubCiteA, pubCiteB]).2.getD 0 defaultPub).source
      = (("A, B").data) ∧
    pubCiteA.source = (("A").data) := by
  decide

/-- **C5**, amended.  The engine is not mutation-free, but it is
observationally a pure fold: reading the returned references out of the final
heap yields exactly `merge_publications` of the initial records, and when all
input identity keys are pairwise distinct (no merge happens) the heap — i.e.
every input record — is left completely unchanged.  When a key recurs, the
first-seen record for that key is updated in place. -/
theorem merge_publications_impl_spec (store : List Publication) :
    ((merge_publications_impl store).1.map
        (fun r => (merge_publications_impl store).2.getD r defaultPub)
      = merge_publications store)
    ∧ ((store.map pubKey).Nodup → (merge_publications_impl store).2 = store) := by
  constructor
  · have hspec := mergeImplGo_spec (List.range store.length) [] store
      (by simpa using List.nodup_range store.length)
      (by simp)
      (by intro r hr; exact List.mem_range.mp hr)
      (by simp)
    unfold merge_publications_impl
    have hread : readback (mergeImplGo (List.range store.length) [] store).2
        (mergeImplGo (List.range store.length) [] store).1 =
        store.foldl mergeStep [] := by
      rw [hspec, range_getD]
      rfl
    show ((mergeImplGo (List.range store.length) [] store).1.map
        Prod.snd).map _ = _
    rw [List.map_map]
    unfold merge_publications
    rw [← hread]
    unfold readback
    rw [List.map_map]
    rfl
  · intro h
    unfold merge_publications_impl
    show (mergeImplGo (List.range store.length) [] store).2 = store
    apply mergeImplGo_no_mutation
    · intro r _
      simp
    · have : (List.range store.length).map
          (fun r => pubKey (store.getD r defaultPub)) =
          store.map pubKey := by
        rw [show (fun r => pubKey (store.getD r defaultPub)) =
            pubKey ∘ (fun r => store.getD r defaultPub) from rfl]
        rw [← List.map_map, range_getD]
      rw [this]
      exact h

theorem leOf_trans {β : Type} [LinearOrder β] (f : Publication → β) (rev : Bool) :
    ∀ a b c, leOf f rev a b = true → leOf f rev b c = true →
      leOf f rev a c = true := by
  intro a b c
  cases rev <;> simp only [leOf, if_true, if_false, Bool.false_eq_true,
    decide_eq_true_eq]
  · exact fun h1 h2 => le_trans h1 h2
  · exact fun h1 h2 => le_trans h2 h1

theorem leOf_total {β : Type} [LinearOrder β] (f : Publication → β) (rev : Bool) :
    ∀ a b, (leOf f rev a b || leOf f rev b a) = true := by
  intro a b
  cases rev <;> simp only [leOf, if_true, if_false, Bool.false_eq_true,
    Bool.or_eq_true, decide_eq_true_eq]
  · exact le_total (f a) (f b)
  · exact le_total (f b) (f a)

theorem pySortBy_perm {β : Type} [LinearOrder β] (f : Publication → β)
    (rev : Bool) (l : List Publication) : (pySortBy f rev l).Perm l :=
  List.mergeSort_perm l (leOf f rev)

theorem pySortBy_sorted_asc {β : Type} [LinearOrder β] (f : Publication → β)
    (l : List Publication) :
    List.Sorted (fun a b => f a ≤ f b) (pySortBy f false l) := by
  have h := List.sorted_mergeSort (leOf_trans f false) (leOf_total f false) l
  exact h.imp (fun hab => by simpa [leOf] using hab)

theorem pySortBy_sorted_desc {β : Type} [LinearOrder β] (f : Publication → β)
    (l : List Publication) :
    List.Sorted (fun a b => f b ≤ f a) (pySortBy f true l) := by
  have h := List.sorted_mergeSort (leOf_trans f true) (leOf_total f true) l
  exact h.imp (fun hab => by simpa [leOf] using hab)

theorem pySortBy_stable {β : Type} [LinearOrder β] [DecidableEq β]
    (f : Publication → β) (rev : Bool) (l : List Publication) (v : β) :
    (pySortBy f rev l).filter (fun x => decide (f x = v)) =
      l.filter (fun x => decide (f x = v)) := by
  have hall : ∀ x ∈ l.filter (fun x => decide (f x = v)), f x = v := by
    intro x hx
    simpa using (List.mem_filter.mp hx).2
  have hpw : (l.filter (fun x => decide (f x = v))).Pairwise
      (fun a b => leOf f rev a b = true) := by
    apply List.pairwise_of_forall_mem_list
    intro a ha b hb
    cases rev <;> simp [leOf, hall a ha, hall b hb]
  have hsub : (l.filter (fun x => decide (f x = v))).Sublist (pySortBy f rev l) :=
    List.sublist_mergeSort (leOf_trans f rev) (leOf_total f rev) hpw
      (List.filter_sublist l)
  have hsub2 : (l.filter (fun x => decide (f x = v))).Sublist
      ((pySortBy f rev l).filter (fun x => decide (f x = v))) := by
    have h := List.Sublist.filter (fun x => decide (f x = v)) hsub
    rwa [List.filter_eq_self.mpr (fun a ha => (List.mem_filter.mp ha).2)] at h
  have hperm : ((pySortBy f rev l).filter (fun x => decide (f x = v))).Perm
      (l.filter (fun x => decide (f x = v))) :=
    (pySortBy_perm f rev l).filter _
  exact (List.Sublist.eq_of_length hsub2 hperm.length_eq.symm).symm

theorem sortPublications_year (rev : Bool) (l : List Publication) :
    sortPublications ("year").data rev l = pySortBy sortKeyYear rev l := by
  unfold sortPublications
  rw [if_pos rfl]

theorem sortPublications_title (rev : Bool) (l : List Publication) :
    sortPublications ("title").data rev l = pySortBy sortKeyTitle rev l := by
  unfold sortPublications
  rw [if_neg (by decide), if_pos rfl]

theorem sortPublications_citations (rev : Bool) (l : List Publication) :
    sortPublications ("citations").data rev l =
      pySortBy sortKeyCitations rev l := by
  unfold sortPublications
  rw [if_neg (by decide), if_neg (by decide), if_pos rfl]

/-- **C7**.  Sorting of the reconciled sequence: a missing `year` or
`citations` sorts as zero, `title` sorts by the lowercased title, the order
is ascending by default and descending with the reverse flag, the output is
a permutation of the input, and the sort is stable — for every key value the
records carrying that value appear in the same relative order as in the
reconciliation output; in particular a sequence of records all sharing one
year is returned unchanged by a sort on `year`. -/
theorem sortPublications_spec (l : List Publication) (rev : Bool) :
    (∀ x : Publication, x.year = none → sortKeyYear x = 0)
    ∧ (∀ x : Publication, x.citations = none → sortKeyCitations x = 0)
    ∧ (∀ x : Publication, sortKeyTitle x = String.mk (pyLower x.title))
    ∧ (sortPublications ("year").data rev l).Perm l
    ∧ (rev = false → List.Sorted (fun a b => sortKeyYear a ≤ sortKeyYear b)
        (sortPublications ("year").data rev l))
    ∧ (rev = true → List.Sorted (fun a b => sortKeyYear b ≤ sortKeyYear a)
        (sortPublications ("year").data rev l))
    ∧ (∀ v, (sortPublications ("year").data rev l).filter
          (fun x => decide (sortKeyYear x = v))
        = l.filter (fun x => decide (sortKeyYear x = v)))
    ∧ (sortPublications ("title").data rev l).Perm l
    ∧ (rev = false → List.Sorted (fun a b => sortKeyTitle a ≤ sortKeyTitle b)
        (sortPublications ("title").data rev l))
    ∧ (rev = true → List.Sorted (fun a b => sortKeyTitle b ≤ sortKeyTitle a)
        (sortPublications ("title").data rev l))
    ∧ (∀ v, (sortPublications ("title").data rev l).filter
          (fun x => decide (sortKeyTitle x = v))
        = l.filter (fun x => decide (sortKeyTitle x = v)))
    ∧ (sortPublications ("citations").data rev l).Perm l
    ∧ (rev = false →
        List.Sorted (fun a b => sortKeyCitations a ≤ sortKeyCitations b)
          (sortPublications ("citations").data rev l))
    ∧ (rev = true →
        List.Sorted (fun a b => sortKeyCitations b ≤ sortKeyCitations a)
          (sortPublications ("citations").data rev l))
    ∧ (∀ v, (sortPublications ("citations").data rev l).filter
          (fun x => decide (sortKeyCitations x = v))
        = l.filter (fun x => decide (sortKeyCitations x = v)))
    ∧ (∀ v, (∀ x ∈ l, sortKeyYear x = v) →
        sortPublications ("year").data rev l = l) := by
  rw [sortPublications_year, sortPublications_title, sortPublications_citations]
  refine ⟨fun x hx => by simp [sortKeyYear, hx],
    fun x hx => by simp [sortKeyCitations, hx],
    fun x => rfl,
    pySortBy_perm sortKeyYear rev l,
    fun hrev => by rw [hrev]; exact pySortBy_sorted_asc sortKeyYear l,
    fun hrev => by rw [hrev]; exact pySortBy_sorted_desc sortKeyYear l,
    fun v => pySortBy_stable sortKeyYear rev l v,
    pySortBy_perm sortKeyTitle rev l,
    fun hrev => by rw [hrev]; exact pySortBy_sorted_asc sortKeyTitle l,
    fun hrev => by rw [hrev]; exact pySortBy_sorted_desc sortKeyTitle l,
    fun v => pySortBy_stable sortKeyTitle rev l v,
    pySortBy_perm sortKeyCitations rev l,
    fun hrev => by rw [hrev]; exact pySortBy_sorted_asc sortKeyCitations l,
    fun hrev => by rw [hrev]; exact pySortBy_sorted_desc sortKeyCitations l,
    fun v => pySortBy_stable sortKeyCitations rev l v,
    fun v hv => ?_⟩
  have hfl : l.filter (fun x => decide (sortKeyYear x = v)) = l :=
    List.filter_eq_self.mpr (fun a ha => by simp [hv a ha])
  have hfs : (pySortBy sortKeyYear rev l).filter
      (fun x => decide (sortKeyYear x = v)) = pySortBy sortKeyYear rev l :=
    List.filter_eq_self.mpr (fun a ha => by
      simp [hv a ((pySortBy_perm sortKeyYear rev l).mem_iff.mp ha)])
  have := pySortBy_stable sortKeyYear rev l v
  rw [hfl, hfs] at this
  exact this

theorem consumeChar_eq_some (a : Char) (s r : PyStr) :
    consumeChar a s = some r ↔ s = a :: r := by
  cases s with
  | nil => simp [consumeChar]
  | cons c s' =>
    simp only [consumeChar]
    by_cases h : c = a
    · subst h
      simp
    · simp [h]

theorem consumeDigits_eq_some :
    ∀ (n : Nat) (s r : PyStr), consumeDigits n s = some r ↔
      ∃ pre : PyStr, pre.length = n ∧ (∀ x ∈ pre, x.isDigit = true) ∧
        s = pre ++ r := by
  intro n
  induction n with
  | zero =>
    intro s r
    simp only [consumeDigits, Option.some.injEq]
    constructor
    · intro h
      exact ⟨[], rfl, by simp, by simp [h]⟩
    · rintro ⟨pre, hlen, -, hs⟩
      have : pre = [] := List.length_eq_zero.mp hlen
      subst this
      simpa using hs
  | succ n ih =>
    intro s r
    cases s with
    | nil =>
      simp only [consumeDigits]
      constructor
      · intro h
        exact absurd h (by simp)
      · rintro ⟨pre, hlen, -, hs⟩
        have : pre = [] := by
          cases pre with
          | nil => rfl
          | cons x xs => exact absurd hs.symm (by simp)
        subst this
        simp at hlen
    | cons c s' =>
      simp only [consumeDigits]
      by_cases hc : c.isDigit
      · rw [if_pos hc, ih]
        constructor
        · rintro ⟨pre, hlen, hdig, hs⟩
          refine ⟨c :: pre, by simp [hlen], ?_, by simp [hs]⟩
          intro x hx
          rcases List.mem_cons.mp hx with h | h
          · subst h; exact hc
          · exact hdig x h
        · rintro ⟨pre, hlen, hdig, hs⟩
          cases pre with
          | nil => simp at hlen
          | cons d pre' =>
            simp only [List.cons_append, List.cons.injEq] at hs
            exact ⟨pre', by simpa using hlen,
              fun x hx => hdig x (List.mem_cons_of_mem _ hx),
              hs.2⟩
      · rw [if_neg hc]
        constructor
        · intro h
          exact absurd h (by simp)
        · rintro ⟨pre, hlen, hdig, hs⟩
          cases pre with
          | nil => simp at hlen
          | cons d pre' =>
            simp only [List.cons_append, List.cons.injEq] at hs
            exact absurd (hs.1 ▸ hdig d (List.mem_cons_self _ _)) (by simp [hc])

theorem orcidBody_eq_some (s r : PyStr) :
    orcidBody s = some r ↔
      ∃ a b c d : PyStr,
        a.length = 4 ∧ (∀ x ∈ a, x.isDigit = true) ∧
        b.length = 4 ∧ (∀ x ∈ b, x.isDigit = true) ∧
        c.length = 4 ∧ (∀ x ∈ c, x.isDigit = true) ∧
        d.length = 3 ∧ (∀ x ∈ d, x.isDigit = true) ∧
        s = a ++ '-' :: (b ++ '-' :: (c ++ '-' :: (d ++ r))) := by
  unfold orcidBody
  constructor
  · intro h
    rcases Option.bind_eq_some.mp h with ⟨s1, h1, h⟩
    rcases Option.bind_eq_some.mp h with ⟨s2, h2, h⟩
    rcases Option.bind_eq_some.mp h with ⟨s3, h3, h⟩
    rcases Option.bind_eq_some.mp h with ⟨s4, h4, h⟩
    rcases Option.bind_eq_some.mp h with ⟨s5, h5, h⟩
    rcases Option.bind_eq_some.mp h with ⟨s6, h6, h7⟩
    rcases (consumeDigits_eq_some 4 s s1).mp h1 with ⟨a, ha4, had, hsa⟩
    have hs1 : s1 = '-' :: s2 := (consumeChar_eq_some '-' s1 s2).mp h2
    rcases (consumeDigits_eq_some 4 s2 s3).mp h3 with ⟨b, hb4, hbd, hsb⟩
    have hs3 : s3 = '-' :: s4 := (consumeChar_eq_some '-' s3 s4).mp h4
    rcases (consumeDigits_eq_some 4 s4 s5).mp h5 with ⟨c, hc4, hcd, hsc⟩
    have hs5 : s5 = '-' :: s6 := (consumeChar_eq_some '-' s5 s6).mp h6
    rcases (consumeDigits_eq_some 3 s6 r).mp h7 with ⟨d, hd3, hdd, hsd⟩
    refine ⟨a, b, c, d, ha4, had, hb4, hbd, hc4, hcd, hd3, hdd, ?_⟩
    rw [hsa, hs1, hsb, hs3, hsc, hs5, hsd]
  · rintro ⟨a, b, c, d, ha4, had, hb4, hbd, hc4, hcd, hd3, hdd, hs⟩
    subst hs
    apply Option.bind_eq_some.mpr
    refine ⟨'-' :: (b ++ '-' :: (c ++ '-' :: (d ++ r))),
      (consumeDigits_eq_some _ _ _).mpr ⟨a, ha4, had, rfl⟩, ?_⟩
    apply Option.bind_eq_some.mpr
    refine ⟨b ++ '-' :: (c ++ '-' :: (d ++ r)),
      (consumeChar_eq_some _ _ _).mpr rfl, ?_⟩
    apply Option.bind_eq_some.mpr
    refine ⟨'-' :: (c ++ '-' :: (d ++ r)),
      (consumeDigits_eq_some _ _ _).mpr ⟨b, hb4, hbd, rfl⟩, ?_⟩
    apply Option.bind_eq_some.mpr
    refine ⟨c ++ '-' :: (d ++ r), (consumeChar_eq_some _ _ _).mpr rfl, ?_⟩
    apply Option.bind_eq_some.mpr
    refine ⟨'-' :: (d ++ r),
      (consumeDigits_eq_some _ _ _).mpr ⟨c, hc4, hcd, rfl⟩, ?_⟩
    apply Option.bind_eq_some.mpr
    refine ⟨d ++ r, (consumeChar_eq_some _ _ _).mpr rfl, ?_⟩
    exact (consumeDigits_eq_some _ _ _).mpr ⟨d, hd3, hdd, rfl⟩

theorem orcidStructural_of_body (s : PyStr) (c : Char)
    (hb : orcidBody s = some [c]) (hc : lastCharOk c = true) :
    orcidStructural s = true := by
  unfold orcidStructural
  rw [hb]
  exact hc

theorem orcidReMatch_iff (s : PyStr) :
    orcidReMatch s = true ↔
      orcidStructural s = true ∨
        ∃ t, s = t ++ [('\n')] ∧ orcidStructural t = true := by
  constructor
  · intro h
    unfold orcidReMatch at h
    cases hb : orcidBody s with
    | none => rw [hb] at h; simp at h
    | some rest0 =>
      rw [hb] at h
      cases rest0 with
      | nil => simp at h
      | cons c rest =>
        simp only [Bool.and_eq_true, Bool.or_eq_true, List.isEmpty_eq_true,
          decide_eq_true_eq] at h
        obtain ⟨hc, hrest⟩ := h
        rcases hrest with hrest | hrest
        · subst hrest
          exact Or.inl (orcidStructural_of_body s c hb hc)
        · subst hrest
          rcases (orcidBody_eq_some s [c, '\n']).mp hb with
            ⟨a, b, cg, d, ha4, had, hb4, hbd, hc4, hcd, hd3, hdd, hs⟩
          refine Or.inr ⟨a ++ '-' :: (b ++ '-' :: (cg ++ '-' :: (d ++ [c]))),
            ?_, ?_⟩
          · rw [hs]
            simp
          · refine orcidStructural_of_body _ c
              ((orcidBody_eq_some _ [c]).mpr
                ⟨a, b, cg, d, ha4, had, hb4, hbd, hc4, hcd, hd3, hdd, rfl⟩) hc
  · rintro (h | ⟨t, hst, ht⟩)
    · unfold orcidStructural at h
      unfold orcidReMatch
      cases hb : orcidBody s with
      | none => rw [hb] at h; simp at h
      | some rest0 =>
        rw [hb] at h
        cases rest0 with
        | nil => simp at h
        | cons c rest =>
          cases rest with
          | nil =>
            simp at h
            simp [h]
          | cons c2 rest2 => simp at h
    · unfold orcidStructural at ht
      cases hb : orcidBody t with
      | none => rw [hb] at ht; simp at ht
      | some rest0 =>
        rw [hb] at ht
        cases rest0 with
        | nil => simp at ht
        | cons c rest =>
          cases rest with
          | cons c2 rest2 => simp at ht
          | nil =>
            simp at ht
            rcases (orcidBody_eq_some t [c]).mp hb with
              ⟨a, b, cg, d, ha4, had, hb4, hbd, hc4, hcd, hd3, hdd, hts⟩
            have hbody : orcidBody s = some [c, '\n'] := by
              apply (orcidBody_eq_some s [c, '\n']).mpr
              refine ⟨a, b, cg, d, ha4, had, hb4, hbd, hc4, hcd, hd3, hdd, ?_⟩
              rw [hst, hts]
              simp
            unfold orcidReMatch
            rw [hbody]
            simp [ht]

/-- **C8**, counterexample.  The identifier `"0000-0000-0000-0000\n"` fails
the structural pattern as described (its last character is a newline, not a
digit or `X`), yet Python's `$` anchor matches just before a trailing
newline, so `re.match` succeeds and the run proceeds past validation to the
network instead of terminating with exit status 1. -/
theorem orcid_trailing_newline_cex :
    orcidStructural (("0000-0000-0000-0000\n").data) = false ∧
    orcidReMatch (("0000-0000-0000-0000\n").data) = true ∧
    validateAndRun (("0000-0000-0000-0000\n").data)
      (fun _ => (35 : Nat)) (fun n => n + 7) = 42 := by
  decide

/-- **C8**, amended.  The run terminates with exit status 1 before any
network activity exactly when `re.match` of the ORCID pattern fails, and
proceeds past validation when it matches — where the matched language is the
structural pattern (four groups of four digits separated by hyphens, last
character a digit or `X`) *or* that same pattern followed by one trailing
newline, which the `$` anchor of the host regex engine also accepts.  The
failure result 1 does not depend on the network function at all. -/
theorem validateAndRun_spec {α : Type} (s : PyStr) (network : Unit → α)
    (finish : α → Nat) :
    (orcidReMatch s = false → validateAndRun s network finish = 1)
    ∧ (orcidReMatch s = true →
        validateAndRun s network finish = finish (network ()))
    ∧ (orcidReMatch s = true ↔
        orcidStructural s = true ∨
          ∃ t, s = t ++ [('\n')] ∧ orcidStructural t = true) :=
  ⟨fun h => by simp [validateAndRun, h],
   fun h => by simp [validateAndRun, h],
   orcidReMatch_iff s⟩

theorem wrongFields_value :
    wrongFields pubFieldKeys csvFieldnames =
      [("publisher").data, ("abstract").data] := by
  decide

theorem writeCsvRow_err (p : Publication) :
    writeCsvRow p = Except.error [("publisher").data, ("abstract").data] := by
  unfold writeCsvRow
  rw [wrongFields_value]

/-- **C9** (code bug).  `save_to_csv` raises `ValueError` on every non-empty
publication list: `vars(pub)` always contains the keys `publisher` and
`abstract`, which are missing from the fixed `fieldnames` list, and
`csv.DictWriter` with the default `extrasaction="raise"` rejects the first
row for exactly those two keys.  The fixed header therefore does not match
the `Publication` record's fields, and the serialization never succeeds for
a non-empty sequence of well-formed records. -/
theorem save_to_csv_always_raises (pubs : List Publication) (h : pubs ≠ []) :
    save_to_csv pubs =
      Except.error [("publisher").data, ("abstract").data] := by
  cases pubs with
  | nil => exact absurd rfl h
  | cons p rest =>
    unfold save_to_csv
    rw [List.mapM_cons, writeCsvRow_err p]
    rfl

/-- Witness for `save_to_csv_always_raises` at a concrete one-record list. -/
theorem save_to_csv_always_raises_witness :
    save_to_csv [{ title := ("t").data, authors := [], year := none }] =
      Except.error [("publisher").data, ("abstract").data] :=
  save_to_csv_always_raises
    [{ title := ("t").data, authors := [], year := none }] (by decide)
